import Mathlib

/-!
Verification development for the fsnjs test-runner core.

The model below is a shallow embedding of the repository's test-execution
pipeline (`execute.ts` / `fsntest.ts` / `expect.ts` inside `src/bin.js`):
the matchers `expect(...).toEqual` / `.toThrow`, the outcome normalizer
`executeJustCallback`, the error renderer `printErrorDetails`, and the
`describe` runner built from the rxjs operators `of`, `map`, `concatMap`,
`scan` and `last` over cold finite observables.

Modelling conventions:
- JavaScript values relevant to the claims are embedded as `JsVal`
  (object property values are restricted to primitives, which is all the
  claims exercise; object and function identity is an explicit `ref`).
- chalk's colorizers are modelled as the ANSI wrappers they produce when
  colors are enabled.
- A cold finite observable is modelled as an interleaved trace of
  side-effect markers (callback invocations) and emitted values, plus an
  optional terminal error.  This is the synchronous cold-observable
  scheduling: each callback settles before the next trace element.
- Clock readings are modelled exactly; `dateToMs` values are scaled by
  1000 (thousandths of a second) so the elapsed-time arithmetic is exact
  integer arithmetic.  All concrete inputs used in theorems are chosen so
  that the corresponding IEEE double computations are also exact.
-/

/-- Models chalk.green with colors enabled: wraps in the ANSI green codes. -/
def chalkGreen (s : String) : String := "\x1b[32m" ++ s ++ "\x1b[39m"

/-- Models chalk.red with colors enabled. -/
def chalkRed (s : String) : String := "\x1b[31m" ++ s ++ "\x1b[39m"

/-- Models chalk.gray with colors enabled. -/
def chalkGray (s : String) : String := "\x1b[90m" ++ s ++ "\x1b[39m"

/-- Models chalk.blue with colors enabled. -/
def chalkBlue (s : String) : String := "\x1b[34m" ++ s ++ "\x1b[39m"

/-- Models chalk.bold with colors enabled. -/
def chalkBold (s : String) : String := "\x1b[1m" ++ s ++ "\x1b[22m"

/-- Models Array.prototype.join called with the separator given in
`printErrorDetails` (`err.join('\n')`). -/
def joinLines : List String → String
  | [] => ""
  | [x] => x
  | x :: xs => x ++ "\n" ++ joinLines xs

/-- Primitive JavaScript values allowed as object property values in the
model (all that the claims exercise). -/
inductive JsPrim where
  | pNull
  | pUndef
  | pBool (b : Bool)
  | pNum (n : Int)
  | pStr (s : String)
deriving Repr, DecidableEq

/-- JavaScript values relevant to the claims.  `ref` fields model object
and function identity (JS `===` compares objects and functions by
reference).  `vErr` models a native Error with its optional `stack`
string; `vFun` models a function whose call either throws (`throws =
true`) or returns normally. -/
inductive JsVal where
  | vUndef
  | vNull
  | vBool (b : Bool)
  | vNum (n : Int)
  | vStr (s : String)
  | vErr (ref : Nat) (stack : Option String)
  | vObj (ref : Nat) (fields : List (String × JsPrim))
  | vFun (ref : Nat) (throws : Bool)
deriving Repr, DecidableEq

/-- Models the JavaScript typeof operator (`typeof null` is "object"). -/
def typeofStr : JsVal → String
  | .vUndef => "undefined"
  | .vNull => "object"
  | .vBool _ => "boolean"
  | .vNum _ => "number"
  | .vStr _ => "string"
  | .vErr _ _ => "object"
  | .vObj _ _ => "object"
  | .vFun _ _ => "function"

/-- Models the external @fsnjs/truthy isTruthy helper as JavaScript
truthiness (ToBoolean).  NaN is not representable in the model. -/
def isTruthy : JsVal → Bool
  | .vUndef => false
  | .vNull => false
  | .vBool b => b
  | .vNum n => n != 0
  | .vStr s => s != ""
  | .vErr _ _ => true
  | .vObj _ _ => true
  | .vFun _ _ => true

/-- Models util.types.isNativeError. -/
def isNativeError : JsVal → Bool
  | .vErr _ _ => true
  | _ => false

/-- Models JSON.stringify of a primitive property value; `none` means the
property is omitted (undefined is not serialized). -/
def jsonStringifyPrim : JsPrim → Option String
  | .pUndef => none
  | .pNull => some "null"
  | .pBool b => some (if b then "true" else "false")
  | .pNum n => some (toString n)
  | .pStr s => some ("\"" ++ s ++ "\"")

/-- Models JSON.stringify of a thrown value as used in
`printErrorDetails` (only ever reached for plain objects; the 4-space
pretty-printing indentation of `JSON.stringify(error, null, 4)` is
abbreviated to single-line output, which no claim inspects). -/
def jsonStringify : JsVal → String
  | .vObj _ fields =>
      "\x7b" ++
        String.intercalate ","
          (fields.filterMap fun p =>
            (jsonStringifyPrim p.2).map fun v => "\"" ++ p.1 ++ "\":" ++ v) ++
      "\x7d"
  | .vNull => "null"
  | .vBool b => if b then "true" else "false"
  | .vNum n => toString n
  | .vStr s => "\"" ++ s ++ "\""
  | .vErr _ _ => "\x7b\x7d"
  | _ => ""

/-- Translation of `printErrorDetails` from execute.ts: builds the list of
lines `err`, starting with the red failed header, then appends according
to the first matching branch (falsiness guard first, then native Error
with a truthy stack, then string, then object, otherwise the generic
unknown-error line), and joins with newlines. -/
def printErrorDetails (name : String) (error : JsVal) : String :=
  let head := chalkRed ("\"" ++ name ++ "\" failed.")
  if isTruthy error = false then
    joinLines [head, chalkRed "An unknown error occured."]
  else
    match error with
    | .vErr _ stack =>
        (match stack with
         | some st =>
             if st = "" then joinLines [head]
             else joinLines [head, chalkGray "\nDetails:\n", st]
         | none => joinLines [head])
    | .vStr s => joinLines [head, chalkRed s]
    | .vObj r fields =>
        joinLines [head, chalkGray "Could not parse error:",
          jsonStringify (.vObj r fields)]
    | _ => joinLines [head, chalkRed "An unknown error occured."]

/-- Models the JavaScript strict equality operator `===` on the embedded
values: primitives by value, Errors, plain objects and functions by
reference identity. -/
def strictEq : JsVal → JsVal → Bool
  | .vUndef, .vUndef => true
  | .vNull, .vNull => true
  | .vBool a, .vBool b => a == b
  | .vNum a, .vNum b => a == b
  | .vStr a, .vStr b => a == b
  | .vErr r1 _, .vErr r2 _ => r1 == r2
  | .vObj r1 _, .vObj r2 _ => r1 == r2
  | .vFun r1 _, .vFun r2 _ => r1 == r2
  | _, _ => false

/-- Models one change object produced by the external diff package's
diffChars. -/
structure DiffChange where
  value : String
  added : Bool
  removed : Bool
deriving Repr, DecidableEq

/-- Models the external diff package's diffChars (external to this
repository): modelled as the coarsest character diff, a full removal
followed by a full insertion.  Only the repository's own rendering of the
change objects matters for the claims, never the diff algorithm. -/
def diffChars (expected received : String) : List DiffChange :=
  [⟨expected, false, true⟩, ⟨received, true, false⟩]

/-- Translation of the `.map(...)` callback inside `toEqual`'s string
branch: added runs render green, removed runs render red, a lone space is
replaced by an underscore first. -/
def renderChange (change : DiffChange) : String :=
  if change.added then chalkGreen (if change.value = " " then "_" else change.value)
  else if change.removed then chalkRed (if change.value = " " then "_" else change.value)
  else change.value

/-- Reads the string payload of a value (only applied where the source has
already established typeof string). -/
def asJsString : JsVal → String
  | .vStr s => s
  | _ => ""

/-- Reads the number payload for the `${expected + ' !== ' + received}`
rendering (only applied where the source has established typeof number). -/
def numDisplay : JsVal → String
  | .vNum n => toString n
  | _ => ""

/-- Translation of `expect(expected).toEqual(received)` from expect.ts: a
strict-equality hit returns true, otherwise an Error is thrown whose
message carries the colorized diff (strings), the `a !== b` detail
(numbers), or no suffix. -/
def toEqual (expected received : JsVal) : Except String Bool :=
  if strictEq expected received then Except.ok true
  else
    let diffed : String :=
      if typeofStr expected = "string" then
        "\n\n" ++ chalkGray "Diff:" ++ "\n" ++
          String.join ((diffChars (asJsString expected) (asJsString received)).map renderChange) ++
          "\n\n"
      else if typeofStr expected = "number" then
        "\n\n" ++ chalkGray "Details:" ++ "\n\n" ++
          chalkRed (numDisplay expected ++ " !== " ++ numDisplay received) ++ "\n"
      else ""
    Except.error ("Expected value " ++ chalkBold "does not equal" ++
      " received value." ++ diffed)

/-- Translation of `expect(expected).toThrow()` from expect.ts.  A
non-function argument throws the expected-a-function Error.  For a
function, the try block calls it and, when the call returns normally,
throws the matcher's own did-not-throw Error; both that Error and any
exception from the call are raised inside the same try, so the catch
block swallows either and returns true. -/
def toThrow (expected : JsVal) : Except String Bool :=
  match expected with
  | .vFun _ _ => Except.ok true
  | e => Except.error ("Expected a function, received " ++ chalkBlue (typeofStr e) ++ ".")

/-- Model of a JavaScript Date restricted to the components `dateToMs`
reads (local hours, minutes, seconds, milliseconds). -/
structure JsDate where
  hours : Nat
  minutes : Nat
  seconds : Nat
  milliseconds : Nat
deriving Repr, DecidableEq

/-- Translation of `dateToMs` from fsntest.ts, scaled by 1000 so the
value stays an exact integer: the source returns seconds-of-day plus
milliseconds divided by 1000; the model returns that value in
thousandths.  All concrete inputs used in theorems make the source's
floating-point computation exact as well. -/
def dateToMs (date : JsDate) : Int :=
  (((date.hours * 60 * 60 + date.minutes * 60 + date.seconds) * 1000
    + date.milliseconds : Nat) : Int)

/-- Three zero-padded decimal digits of a fraction of a second (the
decimal expansion of `f / 1000` for `f < 1000`). -/
def pad3 (n : Nat) : String :=
  ⟨[Nat.digitChar (n / 100 % 10), Nat.digitChar (n / 10 % 10), Nat.digitChar (n % 10)]⟩

/-- Drops trailing zero characters (a decimal representation never keeps
trailing fractional zeros). -/
def dropTrailingZeros (s : String) : String :=
  ⟨(s.data.reverse.dropWhile (fun c => c == '0')).reverse⟩

/-- Models the destructuring `let [whole, decimal] = (String(t)).split('.')`
applied to the elapsed value `t = k / 1000`: a whole number has no dot so
`decimal` is undefined (`none`); otherwise the decimal component is the
fraction's digits with trailing zeros dropped, as in the shortest decimal
representation JavaScript prints. -/
def jsNumSplit (k : Int) : String × Option String :=
  if k % 1000 = 0 then (toString (k / 1000), none)
  else
    ((if k < 0 then "-" else "") ++ toString (k.natAbs / 1000),
      some (dropTrailingZeros (pad3 (k.natAbs % 1000))))

/-- Models `decimal.slice(0, 3)`. -/
def slice3 (s : String) : String := ⟨s.data.take 3⟩

/-- Translation of the timing formatting in `describe` (fsntest.ts lines
326-335), on the elapsed value in thousandths of a second: a falsy
(zero) elapsed yields the literal "0.000"; otherwise the string form of
the number is split at the dot, a missing decimal component defaults to
"000", and the decimal component is truncated to its first three
characters. -/
def formatTiming (timing : Int) : String :=
  if timing ≠ 0 then
    let ws := jsNumSplit timing
    let decimal := ws.2.getD "000"
    ws.1 ++ "." ++ slice3 decimal
  else "0.000"

/-- Translation of the ExecResult interface from execute.ts: note that
`passed` is declared as a string in the source (it holds a colorized
glyph), and the error rendering field is named `errorStr`. -/
structure ExecResult where
  name : String
  passed : String
  errorStr : Option String
deriving Repr, DecidableEq

/-- Translation of the per-test summary row `ExecResult & (timing : string)`
assembled in `describe`. -/
structure TimedResult extends ExecResult where
  timing : String
deriving Repr, DecidableEq

/-- One element of a cold observable's trace: either a side-effect marker
(the name under which `executeJustCallback` invoked a registered
callback) or an emitted value. -/
inductive Item (α : Type) where
  | ev (name : String)
  | val (a : α)
deriving Repr, DecidableEq

/-- The complete trace of a cold finite observable: the interleaved
side effects and emissions, and an optional terminal error name. -/
structure ObsOut (α : Type) where
  items : List (Item α)
  err : Option String
deriving Repr, DecidableEq

/-- A cold observable: subscribing (applying to `()`) produces its trace.
Resubscription replays the callback effects, as in rxjs. -/
def EObs (α : Type) : Type := Unit → ObsOut α

/-- Emitted values of a trace, in order. -/
def valOf {α : Type} : Item α → Option α
  | .val a => some a
  | .ev _ => none

/-- Side-effect markers of a trace, in order. -/
def evOf {α : Type} : Item α → Option String
  | .ev n => some n
  | .val _ => none

/-- Values emitted by a completed-or-errored observable trace. -/
def ObsOut.vals {α : Type} (o : ObsOut α) : List α := o.items.filterMap valOf

/-- Callback-invocation log of an observable trace. -/
def ObsOut.log {α : Type} (o : ObsOut α) : List String := o.items.filterMap evOf

/-- Models rxjs `of(...xs)`: emits the arguments synchronously and
completes; no side effects of its own. -/
def Obs.of {α : Type} (xs : List α) : EObs α := fun _ => ⟨xs.map Item.val, none⟩

/-- Lifts a pure function over one trace element. -/
def Item.mapVal {α β : Type} (f : α → β) : Item α → Item β
  | .ev n => .ev n
  | .val a => .val (f a)

/-- Models the rxjs `map` operator. -/
def Obs.map {α β : Type} (f : α → β) (s : EObs α) : EObs β := fun u =>
  let o := s u
  ⟨o.items.map (Item.mapVal f), o.err⟩

/-- Trace semantics of `concatMap`: source effects stay in place; each
emitted source value is replaced by the full trace of the inner
observable it is projected to (the inner settles before the next source
element, the cold synchronous scheduling); an inner error terminates the
stream, discarding the rest of the source; a source error surfaces after
the last inner completes. -/
def concatGo {α β : Type} (f : α → EObs β) :
    List (Item α) → Option String → List (Item β) × Option String
  | [], e => ([], e)
  | .ev n :: rest, e =>
      let r := concatGo f rest e
      (.ev n :: r.1, r.2)
  | .val a :: rest, e =>
      let io := f a ()
      match io.err with
      | some er => (io.items, some er)
      | none =>
          let r := concatGo f rest e
          (io.items ++ r.1, r.2)

/-- Models the rxjs `concatMap` operator. -/
def Obs.concatMap {α β : Type} (f : α → EObs β) (s : EObs α) : EObs β := fun u =>
  let o := s u
  let r := concatGo f o.items o.err
  ⟨r.1, r.2⟩

/-- Accumulator trace of `scan`: one emission per source emission (the
seed itself is never emitted), side effects kept in place. -/
def scanItems {α β : Type} (g : β → α → β) : β → List (Item α) → List (Item β)
  | _, [] => []
  | b, .ev n :: rest => .ev n :: scanItems g b rest
  | b, .val a :: rest => .val (g b a) :: scanItems g (g b a) rest

/-- Models the rxjs `scan` operator with a seed. -/
def Obs.scan {α β : Type} (g : β → α → β) (seed : β) (s : EObs α) : EObs β := fun u =>
  let o := s u
  ⟨scanItems g seed o.items, o.err⟩

/-- Models the rxjs `last()` operator without a default: re-emits only the
final value upon completion, forwards a source error, and errors with
EmptyError when the source completes without having emitted. -/
def Obs.last {α : Type} (s : EObs α) : EObs α := fun u =>
  let o := s u
  match o.err with
  | some e => ⟨(o.items.filterMap evOf).map Item.ev, some e⟩
  | none =>
      match (o.items.filterMap valOf).getLast? with
      | some v => ⟨(o.items.filterMap evOf).map Item.ev ++ [Item.val v], none⟩
      | none => ⟨(o.items.filterMap evOf).map Item.ev, some "EmptyError"⟩

/-- The settled behavior of one `JustCallback` invocation, the tagged
union the normalizer distinguishes at runtime: a plain synchronous
return, a synchronous throw, a promise that resolves or rejects, or an
observable emitting a list of values and then completing or erroring. -/
inductive PromiseOut where
  | resolves
  | rejects (reason : JsVal)
deriving Repr, DecidableEq

/-- Shape and outcome of a test or hook callback. -/
inductive CbResult where
  | retVoid
  | throws (e : JsVal)
  | retPromise (p : PromiseOut)
  | retObs (emits : List JsVal) (errAfter : Option JsVal)
deriving Repr, DecidableEq

/-- Translation of `isExecResult` from execute.ts: a truthy object with
both a `name` and a `passed` property.  A native Error inherits `name`
but has no `passed` property, so it fails the check. -/
def isExecResult : JsVal → Bool
  | .vObj _ fields =>
      (fields.any fun p => p.1 == "name") && (fields.any fun p => p.1 == "passed")
  | _ => false

/-- Reads one string-typed property (the claims only exercise well-formed
emissions whose relevant properties are strings). -/
def strProp (fields : List (String × JsPrim)) (key : String) : String :=
  match fields.lookup key with
  | some (.pStr s) => s
  | _ => ""

/-- Reads one optional string-typed property. -/
def optStrProp (fields : List (String × JsPrim)) (key : String) : Option String :=
  match fields.lookup key with
  | some (.pStr s) => some s
  | _ => none

/-- Reads an emitted object back as the ExecResult record the runner
consumes downstream (`name`, `passed`, `errorStr`). -/
def execResultOfVal : JsVal → ExecResult
  | .vObj _ fields =>
      ⟨strProp fields "name", strProp fields "passed", optStrProp fields "errorStr"⟩
  | _ => ⟨"", "", none⟩

/-- The fresh passing result `pass` constructed in `executeJustCallback`. -/
def passRes (name : String) : ExecResult := ⟨name, chalkGreen "✔", none⟩

/-- The failing result `fail` before any `errorStr` assignment. -/
def failBase (name : String) : ExecResult := ⟨name, chalkRed "✖", none⟩

/-- The failing result after `fail.errorStr = printErrorDetails(name, e)`. -/
def failWithErr (name : String) (e : JsVal) : ExecResult :=
  ⟨name, chalkRed "✖", some (printErrorDetails name e)⟩

/-- Translation of the `map` stage of the observable branch of
`executeJustCallback`: a value that passes `isExecResult` flows through
unchanged, anything else is replaced by the `fail` object. -/
def coerceEmission (name : String) (v : JsVal) : ExecResult :=
  if isExecResult v then execResultOfVal v else failBase name

/-- Trace of an observable that logs the given invocations and then emits
the given results before completing (the common shape of every
`executeJustCallback` return). -/
def mkOut {α : Type} (logNames : List String) (results : List α) : ObsOut α :=
  ⟨logNames.map Item.ev ++ results.map Item.val, none⟩

/-- Translation of `executeJustCallback` from execute.ts.  An absent
callback immediately emits a fresh passing result.  Otherwise the
callback is invoked once (the logged side effect): a synchronous throw
is caught and emits the failing result with rendered details; a promise
emits the passing result on resolve or the failing result with rendered
details on reject; an observable is piped through `catchError` (mapping
an error to `of(fail)` after storing the rendered details) and then the
`isExecResult` coercion `map`, so each user emission yields one result
and an error appends exactly one failing result.  The returned
observable itself never errors.  The source shares one mutable `fail`
object between the `catchError` and `map` stages; the model represents
each emission functionally, which agrees with the source whenever the
emission is consumed before a later mutation, as in every claim. -/
def executeJustCallback (name : String) (callback : Option CbResult) : EObs ExecResult :=
  fun _ =>
    match callback with
    | none => mkOut [] [passRes name]
    | some .retVoid => mkOut [name] [passRes name]
    | some (.throws e) => mkOut [name] [failWithErr name e]
    | some (.retPromise .resolves) => mkOut [name] [passRes name]
    | some (.retPromise (.rejects r)) => mkOut [name] [failWithErr name r]
    | some (.retObs emits none) => mkOut [name] (emits.map (coerceEmission name))
    | some (.retObs emits (some e)) =>
        mkOut [name] (emits.map (coerceEmission name) ++ [failWithErr name e])

/-- The module-level registration state of fsntest.ts: one optional
callback per lifecycle slot and the ordered test record.  Field order
follows the source declarations. -/
structure Registry where
  beforeAllFn : Option CbResult
  beforeEachFn : Option CbResult
  afterAllFn : Option CbResult
  afterEachFn : Option CbResult
  tests : List (String × CbResult)
deriving Repr, DecidableEq

/-- Key assignment on a JavaScript plain object used as a record:
re-assigning an existing string key keeps its original insertion
position, a new key is appended. -/
def setKey : List (String × CbResult) → String → CbResult → List (String × CbResult)
  | [], k, v => [(k, v)]
  | (k', v') :: rest, k, v =>
      if k' = k then (k', v) :: rest else (k', v') :: setKey rest k v

/-- Translation of `it`: stores the callback under the description in the
`tests` record. -/
def itReg (testDescription : String) (testExec : CbResult) (r : Registry) : Registry :=
  ⟨r.beforeAllFn, r.beforeEachFn, r.afterAllFn, r.afterEachFn,
    setKey r.tests testDescription testExec⟩

/-- Translation of `beforeAll`: overwrites the slot. -/
def beforeAllReg (fn : CbResult) (r : Registry) : Registry :=
  ⟨some fn, r.beforeEachFn, r.afterAllFn, r.afterEachFn, r.tests⟩

/-- Translation of `beforeEach`: overwrites the slot. -/
def beforeEachReg (fn : CbResult) (r : Registry) : Registry :=
  ⟨r.beforeAllFn, some fn, r.afterAllFn, r.afterEachFn, r.tests⟩

/-- Translation of `afterAll`: overwrites the slot. -/
def afterAllReg (fn : CbResult) (r : Registry) : Registry :=
  ⟨r.beforeAllFn, r.beforeEachFn, some fn, r.afterEachFn, r.tests⟩

/-- Translation of `afterEach`: overwrites the slot. -/
def afterEachReg (fn : CbResult) (r : Registry) : Registry :=
  ⟨r.beforeAllFn, r.beforeEachFn, r.afterAllFn, some fn, r.tests⟩

/-- The first `concatMap` stage of `executeTests` in `describe`: runs the
beforeEach hook and maps its emissions back to the test entry. -/
def beStage (reg : Registry) (test : String × CbResult) : EObs (String × CbResult) :=
  Obs.map (fun _ => test) (executeJustCallback "beforeEach" reg.beforeEachFn)

/-- The inner `concatMap` of the test stage: runs the afterEach hook and
maps its emissions to the timed copy of the test result.  The elapsed
thousandths for a test are supplied by the clock oracle `el` (the
difference of the two `dateToMs` readings around the test). -/
def afterEachStage (reg : Registry) (el : String → Int) (name : String)
    (testResult : ExecResult) : EObs TimedResult :=
  Obs.map (fun _ => TimedResult.mk testResult (formatTiming (el name)))
    (executeJustCallback "afterEach" reg.afterEachFn)

/-- The second `concatMap` stage of `executeTests`: executes the test
callback and, per emitted result, the afterEach hook and the timing
spread. -/
def testExecStage (reg : Registry) (el : String → Int)
    (test : String × CbResult) : EObs TimedResult :=
  Obs.concatMap (afterEachStage reg el test.1)
    (executeJustCallback test.1 (some test.2))

/-- Translation of the `scan` accumulator `(acc, result) => acc.push(result)`. -/
def pushResult (acc : List TimedResult) (r : TimedResult) : List TimedResult :=
  acc ++ [r]

/-- Translation of the `executeTests` pipeline of `describe`:
`of(...Object.entries(tests))`, the beforeEach stage, the test stage, the
summary `scan`, and `last()`. -/
def executeTests (reg : Registry) (el : String → Int) : EObs (List TimedResult) :=
  Obs.last (Obs.scan pushResult []
    (Obs.concatMap (testExecStage reg el)
      (Obs.concatMap (beStage reg) (Obs.of reg.tests))))

/-- The final `concatMap` stage of `describe`: runs the afterAll hook and
maps its emissions back to the summary. -/
def afterAllStage (reg : Registry) (result : List TimedResult) : EObs (List TimedResult) :=
  Obs.map (fun _ => result) (executeJustCallback "afterAll" reg.afterAllFn)

/-- Translation of the outer pipeline of `describe`: beforeAll, then
`executeTests`, then afterAll; the subscription's trace is the run of the
whole suite, whose emitted values are the summaries handed to the
presentation collaborator. -/
def describeRun (reg : Registry) (el : String → Int) : ObsOut (List TimedResult) :=
  (Obs.concatMap (afterAllStage reg)
    (Obs.concatMap (fun _ => executeTests reg el)
      (executeJustCallback "beforeAll" reg.beforeAllFn))) ()

/-- Hook-invocation log of one `executeJustCallback` call: the name when a
callback is registered, nothing when the slot is empty. -/
def hookLog (name : String) (cb : Option CbResult) : List String :=
  match cb with
  | none => []
  | some _ => [name]

/-- Results emitted by one `executeJustCallback` call. -/
def ejcVals (name : String) (cb : Option CbResult) : List ExecResult :=
  ((executeJustCallback name cb) ()).vals

/-- First emitted result of one `executeJustCallback` call. -/
def ejcRes (name : String) (cb : Option CbResult) : ExecResult :=
  (ejcVals name cb).getD 0 (passRes name)

/-- A callback (or absent hook) whose normalized execution emits exactly
one result, the shape the runner's bookkeeping assumes.  Synchronous,
throwing and promise callbacks always satisfy this; observable callbacks
satisfy it exactly when they emit once or error without emitting. -/
abbrev singleEmit (name : String) (cb : Option CbResult) : Prop :=
  ejcVals name cb = [ejcRes name cb]

theorem filterMap_valOf_evs {α : Type} (L : List String) :
    (L.map (Item.ev : String → Item α)).filterMap valOf = [] := by
  induction L with
  | nil => rfl
  | cons a t ih => simp [valOf, ih]

theorem filterMap_valOf_vals {α : Type} (R : List α) :
    (R.map Item.val).filterMap valOf = R := by
  induction R with
  | nil => rfl
  | cons a t ih => simp [valOf, ih]

theorem filterMap_evOf_evs {α : Type} (L : List String) :
    (L.map (Item.ev : String → Item α)).filterMap evOf = L := by
  induction L with
  | nil => rfl
  | cons a t ih => simp [evOf, ih]

theorem filterMap_evOf_vals {α : Type} (R : List α) :
    (R.map Item.val).filterMap evOf = [] := by
  induction R with
  | nil => rfl
  | cons a t ih => simp [evOf, ih]

theorem mkOut_vals {α : Type} (L : List String) (R : List α) :
    (mkOut L R).vals = R := by
  simp [mkOut, ObsOut.vals, List.filterMap_append, List.filterMap_map,
    Function.comp_def, valOf]

theorem mkOut_log {α : Type} (L : List String) (R : List α) :
    (mkOut L R).log = L := by
  simp [mkOut, ObsOut.log, List.filterMap_append, List.filterMap_map,
    Function.comp_def, evOf]

theorem mkOut_err {α : Type} (L : List String) (R : List α) :
    (mkOut L R).err = none := rfl

/-- Every return of the normalizer is a log prefix followed by its
emissions, and it never errors. -/
theorem ejc_shape (name : String) (cb : Option CbResult) :
    executeJustCallback name cb () = mkOut (hookLog name cb) (ejcVals name cb) := by
  cases cb with
  | none => simp [executeJustCallback, ejcVals, hookLog, mkOut_vals]
  | some c =>
    cases c with
    | retVoid => simp [executeJustCallback, ejcVals, hookLog, mkOut_vals]
    | throws e => simp [executeJustCallback, ejcVals, hookLog, mkOut_vals]
    | retPromise p =>
      cases p with
      | resolves => simp [executeJustCallback, ejcVals, hookLog, mkOut_vals]
      | rejects r => simp [executeJustCallback, ejcVals, hookLog, mkOut_vals]
    | retObs emits errAfter =>
      cases errAfter with
      | none => simp [executeJustCallback, ejcVals, hookLog, mkOut_vals]
      | some e => simp [executeJustCallback, ejcVals, hookLog, mkOut_vals]

theorem map_mapVal_evs {α β : Type} (f : α → β) (L : List String) :
    (L.map (Item.ev : String → Item α)).map (Item.mapVal f) = L.map Item.ev := by
  induction L with
  | nil => rfl
  | cons a t ih => simp [Item.mapVal, ih]

theorem map_mapVal_vals {α β : Type} (f : α → β) (R : List α) :
    (R.map Item.val).map (Item.mapVal f) = (R.map f).map Item.val := by
  induction R with
  | nil => rfl
  | cons a t ih => simp [Item.mapVal, ih]

/-- The rxjs `map` operator over a logged emission trace maps the
emissions and keeps the log. -/
theorem obsMap_mkOut {α β : Type} (f : α → β) (s : EObs α) (L : List String)
    (R : List α) (h : s () = mkOut L R) :
    Obs.map f s () = mkOut L (R.map f) := by
  simp [Obs.map, h, mkOut, List.map_append, List.map_map, Function.comp_def,
    Item.mapVal]

/-- The beforeEach stage on a single-emission hook logs the hook
invocation and re-emits the test entry once. -/
theorem beStage_run (reg : Registry) (t : String × CbResult)
    (hbe : singleEmit "beforeEach" reg.beforeEachFn) :
    beStage reg t () = mkOut (hookLog "beforeEach" reg.beforeEachFn) [t] := by
  have h2 : executeJustCallback "beforeEach" reg.beforeEachFn ()
      = mkOut (hookLog "beforeEach" reg.beforeEachFn)
          [ejcRes "beforeEach" reg.beforeEachFn] := by
    rw [ejc_shape, hbe]
  have h3 := obsMap_mkOut (fun _ => t) _ _ _ h2
  simpa [beStage] using h3

/-- The afterEach stage on a single-emission hook logs the hook
invocation and emits the timed copy of the test result once. -/
theorem afterEachStage_run (reg : Registry) (el : String → Int) (name : String)
    (r : ExecResult) (hae : singleEmit "afterEach" reg.afterEachFn) :
    afterEachStage reg el name r ()
      = mkOut (hookLog "afterEach" reg.afterEachFn)
          [TimedResult.mk r (formatTiming (el name))] := by
  have h2 : executeJustCallback "afterEach" reg.afterEachFn ()
      = mkOut (hookLog "afterEach" reg.afterEachFn)
          [ejcRes "afterEach" reg.afterEachFn] := by
    rw [ejc_shape, hae]
  have h3 := obsMap_mkOut (fun _ => TimedResult.mk r (formatTiming (el name))) _ _ _ h2
  simpa [afterEachStage] using h3

/-- Side-effect markers pass through `concatMap` unchanged. -/
theorem concatGo_ev_append {α β : Type} (f : α → EObs β) (L : List String)
    (l : List (Item α)) (e : Option String) :
    concatGo f (L.map Item.ev ++ l) e
      = (L.map Item.ev ++ (concatGo f l e).1, (concatGo f l e).2) := by
  induction L with
  | nil => simp
  | cons a t ih => simp [concatGo, ih]

/-- The test stage on a single-emission test callback and single-emission
afterEach hook: the test invocation, then the afterEach invocation, then
one timed result. -/
theorem testExecStage_run (reg : Registry) (el : String → Int)
    (p : String × CbResult)
    (hae : singleEmit "afterEach" reg.afterEachFn)
    (hp : singleEmit p.1 (some p.2)) :
    testExecStage reg el p ()
      = mkOut (p.1 :: hookLog "afterEach" reg.afterEachFn)
          [TimedResult.mk (ejcRes p.1 (some p.2)) (formatTiming (el p.1))] := by
  have h2 : executeJustCallback p.1 (some p.2) ()
      = mkOut [p.1] [ejcRes p.1 (some p.2)] := by
    rw [ejc_shape, hp]; rfl
  have h3 := afterEachStage_run reg el p.1 (ejcRes p.1 (some p.2)) hae
  simp [testExecStage, Obs.concatMap, h2, mkOut, concatGo, h3]

/-- Invocation log of one test iteration: the beforeEach hook, the test
callback itself, then the afterEach hook. -/
def perTestLog (reg : Registry) (p : String × CbResult) : List String :=
  hookLog "beforeEach" reg.beforeEachFn ++ p.1 :: hookLog "afterEach" reg.afterEachFn

/-- The timed summary row `describe` assembles for one test. -/
def testResultOf (el : String → Int) (p : String × CbResult) : TimedResult :=
  TimedResult.mk (ejcRes p.1 (some p.2)) (formatTiming (el p.1))

/-- Invocation log of the whole test loop. -/
def suiteLog (reg : Registry) : List String :=
  (reg.tests.map (perTestLog reg)).flatten

/-- The summary list `describe` hands to the presentation collaborator. -/
def summaryOf (reg : Registry) (el : String → Int) : List TimedResult :=
  reg.tests.map (testResultOf el)

/-- The trace of one test iteration inside the loop: its log markers
followed by its single timed result. -/
def perTestItems (reg : Registry) (el : String → Int)
    (p : String × CbResult) : List (Item TimedResult) :=
  (perTestLog reg p).map Item.ev ++ [Item.val (testResultOf el p)]

/-- Unrolling the beforeEach stage over the test entries. -/
theorem beStream_run (reg : Registry) (ts : List (String × CbResult))
    (hbe : singleEmit "beforeEach" reg.beforeEachFn) :
    concatGo (beStage reg) (ts.map Item.val) none
      = ((ts.map fun t =>
            (hookLog "beforeEach" reg.beforeEachFn).map Item.ev ++ [Item.val t]).flatten,
         none) := by
  induction ts with
  | nil => simp [concatGo]
  | cons t rest ih =>
      simp [concatGo, beStage_run reg t hbe, mkOut, ih]

/-- Unrolling the test stage over the beforeEach stage's trace. -/
theorem testStream_run (reg : Registry) (el : String → Int)
    (ts : List (String × CbResult))
    (hae : singleEmit "afterEach" reg.afterEachFn)
    (hts : ∀ p ∈ ts, singleEmit p.1 (some p.2)) :
    concatGo (testExecStage reg el)
        ((ts.map fun t =>
            (hookLog "beforeEach" reg.beforeEachFn).map Item.ev ++ [Item.val t]).flatten)
        none
      = ((ts.map (perTestItems reg el)).flatten, none) := by
  induction ts with
  | nil => simp [concatGo]
  | cons p rest ih =>
      have hp : singleEmit p.1 (some p.2) := hts p (by simp)
      have ihr := ih (fun q hq => hts q (by simp [hq]))
      rw [List.map_cons, List.flatten_cons, List.append_assoc, concatGo_ev_append]
      rw [show ([Item.val p] : List (Item (String × CbResult))) ++
            (rest.map fun t =>
              (hookLog "beforeEach" reg.beforeEachFn).map Item.ev ++ [Item.val t]).flatten
          = Item.val p ::
            (rest.map fun t =>
              (hookLog "beforeEach" reg.beforeEachFn).map Item.ev ++ [Item.val t]).flatten
        from rfl]
      simp [concatGo, testExecStage_run reg el p hae hp, mkOut, ihr,
        perTestItems, perTestLog, testResultOf]

/-- Value-level accumulator trace of `scan` (the emitted accumulators). -/
def scanList {α β : Type} (g : β → α → β) : β → List α → List β
  | _, [] => []
  | b, a :: rest => g b a :: scanList g (g b a) rest

theorem scanItems_evOf {α β : Type} (g : β → α → β) (b : β) (l : List (Item α)) :
    (scanItems g b l).filterMap evOf = l.filterMap evOf := by
  induction l generalizing b with
  | nil => rfl
  | cons i rest ih =>
      cases i with
      | ev n => simp [scanItems, evOf, ih]
      | val a => simp [scanItems, evOf, ih]

theorem scanItems_valOf {α β : Type} (g : β → α → β) (b : β) (l : List (Item α)) :
    (scanItems g b l).filterMap valOf = scanList g b (l.filterMap valOf) := by
  induction l generalizing b with
  | nil => rfl
  | cons i rest ih =>
      cases i with
      | ev n => simp [scanItems, valOf, scanList, ih]
      | val a => simp [scanItems, valOf, scanList, ih]

theorem getLast?_cons_ne {α : Type} (x : α) (l : List α) (h : l ≠ []) :
    (x :: l).getLast? = l.getLast? := by
  cases l with
  | nil => exact absurd rfl h
  | cons b t => simp [List.getLast?_cons_cons]

/-- The `scan` over the array-push accumulator ends in the full list of
results. -/
theorem scanList_push_getLast (l : List TimedResult) :
    ∀ acc : List TimedResult, l ≠ [] →
      (scanList pushResult acc l).getLast? = some (acc ++ l) := by
  induction l with
  | nil => intro acc h; exact absurd rfl h
  | cons a rest ih =>
      intro acc h
      cases rest with
      | nil => simp [scanList, pushResult]
      | cons b r2 =>
          rw [scanList, getLast?_cons_ne _ _ (by simp [scanList])]
          rw [ih (pushResult acc a) (by simp)]
          simp [pushResult]

theorem blocks_valOf (reg : Registry) (el : String → Int)
    (ts : List (String × CbResult)) :
    ((ts.map (perTestItems reg el)).flatten).filterMap valOf
      = ts.map (testResultOf el) := by
  induction ts with
  | nil => rfl
  | cons p rest ih =>
      simp [perTestItems, List.filterMap_append, List.filterMap_map,
        Function.comp_def, valOf, ih]

theorem blocks_evOf (reg : Registry) (el : String → Int)
    (ts : List (String × CbResult)) :
    ((ts.map (perTestItems reg el)).flatten).filterMap evOf
      = (ts.map (perTestLog reg)).flatten := by
  induction ts with
  | nil => rfl
  | cons p rest ih =>
      simp [perTestItems, List.filterMap_append, List.filterMap_map,
        Function.comp_def, evOf, ih]

/-- Subscription of a `concatMap` pipeline whose source trace is known. -/
theorem obsConcatMap_run_mk {α β : Type} (f : α → EObs β) (s : EObs α)
    (its : List (Item α)) (e : Option String) (h : s () = ⟨its, e⟩) :
    Obs.concatMap f s () = ⟨(concatGo f its e).1, (concatGo f its e).2⟩ := by
  simp [Obs.concatMap, h]

/-- Subscription of a `scan` pipeline whose source trace is known. -/
theorem obsScan_run_mk {α β : Type} (g : β → α → β) (seed : β) (s : EObs α)
    (its : List (Item α)) (e : Option String) (h : s () = ⟨its, e⟩) :
    Obs.scan g seed s () = ⟨scanItems g seed its, e⟩ := by
  simp [Obs.scan, h]

/-- Subscription of a `last()` pipeline whose source trace is known and
completes. -/
theorem obsLast_run_none {α : Type} (s : EObs α) (its : List (Item α))
    (h : s () = ⟨its, none⟩) :
    Obs.last s ()
      = (match (its.filterMap valOf).getLast? with
         | some v => ⟨(its.filterMap evOf).map Item.ev ++ [Item.val v], none⟩
         | none => ⟨(its.filterMap evOf).map Item.ev, some "EmptyError"⟩) := by
  simp [Obs.last, h]

/-- Characterization of the test loop when every hook and test emits a
single result and at least one test is registered: the interleaved
per-test logs followed by the single summary emission. -/
theorem executeTests_run (reg : Registry) (el : String → Int)
    (hbe : singleEmit "beforeEach" reg.beforeEachFn)
    (hae : singleEmit "afterEach" reg.afterEachFn)
    (hts : ∀ p ∈ reg.tests, singleEmit p.1 (some p.2))
    (hne : reg.tests ≠ []) :
    executeTests reg el ()
      = ⟨(suiteLog reg).map Item.ev ++ [Item.val (summaryOf reg el)], none⟩ := by
  have h1 : (Obs.concatMap (beStage reg) (Obs.of reg.tests)) ()
      = ⟨(reg.tests.map fun t =>
            (hookLog "beforeEach" reg.beforeEachFn).map Item.ev ++ [Item.val t]).flatten,
         none⟩ := by
    rw [obsConcatMap_run_mk (beStage reg) (Obs.of reg.tests)
          (reg.tests.map Item.val) none rfl]
    simp [beStream_run reg reg.tests hbe]
  have h2 : (Obs.concatMap (testExecStage reg el)
        (Obs.concatMap (beStage reg) (Obs.of reg.tests))) ()
      = ⟨(reg.tests.map (perTestItems reg el)).flatten, none⟩ := by
    rw [obsConcatMap_run_mk (testExecStage reg el) _ _ _ h1]
    simp [testStream_run reg el reg.tests hae hts]
  have h3 := obsScan_run_mk pushResult [] _ _ _ h2
  have hsv : reg.tests.map (testResultOf el) ≠ [] := by
    simpa using hne
  unfold executeTests
  rw [obsLast_run_none _ _ h3]
  rw [scanItems_valOf, scanItems_evOf, blocks_valOf, blocks_evOf,
    scanList_push_getLast _ [] hsv]
  simp [suiteLog, summaryOf]

/-- With no registered tests the loop completes without emitting and
`last()` turns that into the EmptyError failure. -/
theorem executeTests_noTests (reg : Registry) (el : String → Int)
    (h : reg.tests = []) :
    executeTests reg el () = ⟨[], some "EmptyError"⟩ := by
  simp [executeTests, Obs.last, Obs.scan, Obs.concatMap, Obs.of, h, concatGo,
    scanItems]

/-- The afterAll stage on a single-emission hook logs the hook invocation
and re-emits the summary once. -/
theorem afterAllStage_run (reg : Registry) (summary : List TimedResult)
    (haa : singleEmit "afterAll" reg.afterAllFn) :
    afterAllStage reg summary ()
      = mkOut (hookLog "afterAll" reg.afterAllFn) [summary] := by
  have h2 : executeJustCallback "afterAll" reg.afterAllFn ()
      = mkOut (hookLog "afterAll" reg.afterAllFn)
          [ejcRes "afterAll" reg.afterAllFn] := by
    rw [ejc_shape, haa]
  have h3 := obsMap_mkOut (fun _ => summary) _ _ _ h2
  simpa [afterAllStage] using h3

/-- Master characterization of a suite run with at least one test, under
single-emission hooks and tests: beforeAll once, then per test beforeEach,
the test, afterEach, then afterAll once, and exactly one summary in
registration order; the run completes without error. -/
theorem describeRun_run (reg : Registry) (el : String → Int)
    (hba : singleEmit "beforeAll" reg.beforeAllFn)
    (hbe : singleEmit "beforeEach" reg.beforeEachFn)
    (hae : singleEmit "afterEach" reg.afterEachFn)
    (haa : singleEmit "afterAll" reg.afterAllFn)
    (hts : ∀ p ∈ reg.tests, singleEmit p.1 (some p.2))
    (hne : reg.tests ≠ []) :
    describeRun reg el
      = mkOut (hookLog "beforeAll" reg.beforeAllFn ++ suiteLog reg
            ++ hookLog "afterAll" reg.afterAllFn)
          [summaryOf reg el] := by
  have hba2 : executeJustCallback "beforeAll" reg.beforeAllFn ()
      = ⟨(hookLog "beforeAll" reg.beforeAllFn).map Item.ev
          ++ [ejcRes "beforeAll" reg.beforeAllFn].map Item.val, none⟩ := by
    rw [ejc_shape, hba]; rfl
  have hinner : (Obs.concatMap (fun _ => executeTests reg el)
        (executeJustCallback "beforeAll" reg.beforeAllFn)) ()
      = ⟨(hookLog "beforeAll" reg.beforeAllFn).map Item.ev
          ++ ((suiteLog reg).map Item.ev ++ [Item.val (summaryOf reg el)]),
         none⟩ := by
    rw [obsConcatMap_run_mk (fun _ => executeTests reg el) _ _ _ hba2]
    rw [concatGo_ev_append]
    simp [concatGo, executeTests_run reg el hbe hae hts hne]
  unfold describeRun
  rw [obsConcatMap_run_mk (afterAllStage reg) _ _ _ hinner]
  rw [concatGo_ev_append, concatGo_ev_append]
  simp [concatGo, afterAllStage_run reg (summaryOf reg el) haa, mkOut,
    List.append_assoc]

/-- A trace of only side-effect markers passes through `concatMap`. -/
theorem concatGo_evs {α β : Type} (f : α → EObs β) (L : List String)
    (e : Option String) :
    concatGo f (L.map Item.ev) e = (L.map Item.ev, e) := by
  induction L with
  | nil => simp [concatGo]
  | cons a t ih => simp [concatGo, ih]

/-- Master characterization of a suite run with no registered tests: the
beforeAll hook is invoked, the EmptyError from `last()` propagates, no
summary is delivered and the afterAll hook is never reached. -/
theorem describeRun_noTests (reg : Registry) (el : String → Int)
    (hba : singleEmit "beforeAll" reg.beforeAllFn)
    (h : reg.tests = []) :
    describeRun reg el
      = ⟨(hookLog "beforeAll" reg.beforeAllFn).map Item.ev, some "EmptyError"⟩ := by
  have hba2 : executeJustCallback "beforeAll" reg.beforeAllFn ()
      = ⟨(hookLog "beforeAll" reg.beforeAllFn).map Item.ev
          ++ [ejcRes "beforeAll" reg.beforeAllFn].map Item.val, none⟩ := by
    rw [ejc_shape, hba]; rfl
  have hinner : (Obs.concatMap (fun _ => executeTests reg el)
        (executeJustCallback "beforeAll" reg.beforeAllFn)) ()
      = ⟨(hookLog "beforeAll" reg.beforeAllFn).map Item.ev, some "EmptyError"⟩ := by
    rw [obsConcatMap_run_mk (fun _ => executeTests reg el) _ _ _ hba2]
    rw [concatGo_ev_append]
    simp [concatGo, executeTests_noTests reg el h]
  unfold describeRun
  rw [obsConcatMap_run_mk (afterAllStage reg) _ _ _ hinner]
  rw [concatGo_evs]

/-- Whether a callback returns the observable shape. -/
def isObsShape : CbResult → Bool
  | .retObs _ _ => true
  | _ => false

/-- Number of results the normalizer emits for one callback, by shape:
synchronous, throwing and promise callbacks yield exactly one; an
observable yields one per emission, plus one for a terminal error. -/
def resultCount : CbResult → Nat
  | .retVoid => 1
  | .throws _ => 1
  | .retPromise _ => 1
  | .retObs emits none => emits.length
  | .retObs emits (some _) => emits.length + 1

theorem ejcVals_length (name : String) (cb : CbResult) :
    (ejcVals name (some cb)).length = resultCount cb := by
  cases cb with
  | retVoid => rfl
  | throws e => rfl
  | retPromise p => cases p <;> rfl
  | retObs emits errAfter =>
      cases errAfter with
      | none => simp [ejcVals, executeJustCallback, mkOut_vals, resultCount]
      | some e => simp [ejcVals, executeJustCallback, mkOut_vals, resultCount]

theorem ejc_err (name : String) (cb : Option CbResult) :
    (executeJustCallback name cb ()).err = none := by
  rw [ejc_shape]; rfl

theorem ejcVals_obs (name : String) (emits : List JsVal) :
    ejcVals name (some (.retObs emits none)) = emits.map (coerceEmission name) := by
  simp [ejcVals, executeJustCallback, mkOut_vals]

theorem ejcVals_obs_err (name : String) (emits : List JsVal) (e : JsVal) :
    ejcVals name (some (.retObs emits (some e)))
      = emits.map (coerceEmission name) ++ [failWithErr name e] := by
  simp [ejcVals, executeJustCallback, mkOut_vals]

theorem ejcRes_name (name : String) (cb : CbResult) (h : isObsShape cb = false) :
    (ejcRes name (some cb)).name = name := by
  cases cb with
  | retVoid => rfl
  | throws e => rfl
  | retPromise p => cases p <;> rfl
  | retObs emits errAfter => simp [isObsShape] at h

theorem singleEmit_none (name : String) : singleEmit name none := rfl

theorem singleEmit_of_nonObs (name : String) (cb : CbResult)
    (h : isObsShape cb = false) : singleEmit name (some cb) := by
  cases cb with
  | retVoid => rfl
  | throws e => rfl
  | retPromise p => cases p <;> rfl
  | retObs emits errAfter => simp [isObsShape] at h

theorem count_hookLog_self (name : String) (cb : Option CbResult) :
    (hookLog name cb).count name = (hookLog name cb).length := by
  cases cb with
  | none => rfl
  | some c => simp [hookLog]

theorem count_hookLog_ne (nm name : String) (cb : Option CbResult)
    (h : name ≠ nm) :
    (hookLog name cb).count nm = 0 := by
  cases cb with
  | none => rfl
  | some c => simp [hookLog, List.count_cons, h]

theorem count_perTestLog (reg : Registry) (nm : String) (p : String × CbResult)
    (h : p.1 ≠ nm) :
    (perTestLog reg p).count nm
      = (hookLog "beforeEach" reg.beforeEachFn).count nm
        + (hookLog "afterEach" reg.afterEachFn).count nm := by
  simp [perTestLog, List.count_append, List.count_cons, h]

theorem count_perTest_flatten (reg : Registry) (nm : String) :
    ∀ ts : List (String × CbResult), (∀ p ∈ ts, p.1 ≠ nm) →
    ((ts.map (perTestLog reg)).flatten).count nm
      = ts.length * ((hookLog "beforeEach" reg.beforeEachFn).count nm
          + (hookLog "afterEach" reg.afterEachFn).count nm) := by
  intro ts
  induction ts with
  | nil => intro _; simp
  | cons p rest ih =>
      intro h
      have hp : p.1 ≠ nm := h p (by simp)
      have hr := ih (fun q hq => h q (by simp [hq]))
      simp only [List.map_cons, List.flatten_cons, List.count_append, hr,
        count_perTestLog reg nm p hp, List.length_cons]
      ring

theorem mem_suiteLog (reg : Registry) (p : String × CbResult)
    (hp : p ∈ reg.tests) : p.1 ∈ suiteLog reg := by
  unfold suiteLog
  exact List.mem_flatten.mpr
    ⟨perTestLog reg p, List.mem_map_of_mem _ hp, by simp [perTestLog]⟩

theorem joinLines_head (x : String) (xs : List String) :
    ∃ r : String, joinLines (x :: xs) = x ++ r := by
  cases xs with
  | nil => exact ⟨"", by simp [joinLines]⟩
  | cons y ys =>
      exact ⟨"\n" ++ joinLines (y :: ys), by simp [joinLines, String.append_assoc]⟩

/-- Every rendered error block starts with the red failed header. -/
theorem printErrorDetails_head (name : String) (e : JsVal) :
    ∃ rest : String, printErrorDetails name e
      = chalkRed ("\"" ++ name ++ "\" failed.") ++ rest := by
  unfold printErrorDetails
  cases e with
  | vUndef => exact joinLines_head _ _
  | vNull => exact joinLines_head _ _
  | vBool b => cases b <;> simp [isTruthy] <;> exact joinLines_head _ _
  | vNum n =>
      by_cases hn : n = 0 <;> simp [isTruthy, hn] <;> exact joinLines_head _ _
  | vStr s =>
      by_cases hs : s = "" <;> simp [isTruthy, hs] <;> exact joinLines_head _ _
  | vErr ref stack =>
      cases stack with
      | none => simp [isTruthy]; exact joinLines_head _ _
      | some st =>
          by_cases hs : st = "" <;> simp [isTruthy, hs] <;> exact joinLines_head _ _
  | vObj ref fields => simp [isTruthy]; exact joinLines_head _ _
  | vFun ref th => simp [isTruthy]; exact joinLines_head _ _

/-- A rendered error block is never the empty string. -/
theorem printErrorDetails_ne_empty (name : String) (e : JsVal) :
    printErrorDetails name e ≠ "" := by
  obtain ⟨rest, hr⟩ := printErrorDetails_head name e
  rw [hr]
  intro hc
  have := congrArg String.length hc
  simp [String.length_append, chalkRed] at this
  exact absurd this.1.1.1 (by decide)

/-- Reads the stack property of a value (present only on native Errors). -/
def errStack : JsVal → Option String
  | .vErr _ st => st
  | _ => none

/-- Rendering dictated by the claim's wording, for refinement comparison
(written from the claim, not from the source): after the failed header,
an error carrying a stack trace gets the stack under the Details label;
else a string is appended; else a plain object is JSON-serialized under
the could-not-parse label; otherwise (null, undefined, other) the generic
unknown-error line is appended — in every case some detail follows. -/
def claimC8Render (name : String) (error : JsVal) : String :=
  let head := chalkRed ("\"" ++ name ++ "\" failed.")
  match error with
  | .vErr _ (some st) => joinLines [head, chalkGray "\nDetails:\n", st]
  | .vStr s => joinLines [head, chalkRed s]
  | .vObj r fields =>
      joinLines [head, chalkGray "Could not parse error:",
        jsonStringify (.vObj r fields)]
  | _ => joinLines [head, chalkRed "An unknown error occured."]

/-- Rendering as the code actually behaves (the amended claim): the
truthiness guard comes first, so every falsy error — null, undefined,
the empty string, zero, false — gets the generic unknown-error line; a
native Error is rendered by its stack under the Details label when the
stack is truthy and otherwise adds no detail line at all; then a string
is appended; then an object is JSON-serialized; anything else gets the
generic line. -/
def amendedC8Render (name : String) (error : JsVal) : String :=
  let head := chalkRed ("\"" ++ name ++ "\" failed.")
  if isTruthy error = false then
    joinLines [head, chalkRed "An unknown error occured."]
  else if isNativeError error then
    match errStack error with
    | some st => if st = "" then head else joinLines [head, chalkGray "\nDetails:\n", st]
    | none => head
  else if typeofStr error = "string" then
    joinLines [head, chalkRed (asJsString error)]
  else if typeofStr error = "object" then
    joinLines [head, chalkGray "Could not parse error:", jsonStringify error]
  else joinLines [head, chalkRed "An unknown error occured."]

theorem ped_eq_amended (name : String) (e : JsVal) :
    printErrorDetails name e = amendedC8Render name e := by
  cases e with
  | vUndef => rfl
  | vNull => rfl
  | vBool b => cases b <;> rfl
  | vNum n =>
      by_cases hn : n = 0 <;>
        simp [printErrorDetails, amendedC8Render, isTruthy, isNativeError,
          typeofStr, errStack, hn]
  | vStr s =>
      by_cases hs : s = "" <;>
        simp [printErrorDetails, amendedC8Render, isTruthy, isNativeError,
          typeofStr, errStack, asJsString, hs]
  | vErr ref stack =>
      cases stack with
      | none => rfl
      | some st =>
          by_cases hs : st = "" <;>
            simp [printErrorDetails, amendedC8Render, isTruthy, isNativeError,
              typeofStr, errStack, joinLines, hs]
  | vObj ref fields => rfl
  | vFun ref th => rfl

/-- A well-formed ExecResult object as an emitted JS value: both `name`
and `passed` properties present, `errorStr` present when set. -/
def mkExecObj (ref : Nat) (r : ExecResult) : JsVal :=
  .vObj ref ([("name", .pStr r.name), ("passed", .pStr r.passed)] ++
    (match r.errorStr with
     | some s => [("errorStr", JsPrim.pStr s)]
     | none => []))

theorem isExecResult_mkExecObj (ref : Nat) (r : ExecResult) :
    isExecResult (mkExecObj ref r) = true := by
  cases hr : r.errorStr <;> simp [mkExecObj, isExecResult, hr]

theorem execResultOfVal_mkExecObj (ref : Nat) (r : ExecResult) :
    execResultOfVal (mkExecObj ref r) = r := by
  obtain ⟨n, p, es⟩ := r
  cases es <;>
    simp [mkExecObj, execResultOfVal, strProp, optStrProp, List.lookup]

theorem coerceEmission_exec (name : String) (ref : Nat) (r : ExecResult) :
    coerceEmission name (mkExecObj ref r) = r := by
  simp [coerceEmission, isExecResult_mkExecObj, execResultOfVal_mkExecObj]

theorem coerceEmission_not_exec (name : String) (v : JsVal)
    (h : isExecResult v = false) :
    coerceEmission name v = failBase name := by
  simp [coerceEmission, h]

set_option maxRecDepth 4000 in
/-- The fractional digits of a nonzero millisecond remainder: between one
and three characters. -/
theorem dtz_pad3_bounds : ∀ f : Nat, f < 1000 → f ≠ 0 →
    1 ≤ (dropTrailingZeros (pad3 f)).length ∧
      (dropTrailingZeros (pad3 f)).length ≤ 3 := by
  decide

theorem slice3_of_le (s : String) (h : s.length ≤ 3) : slice3 s = s := by
  obtain ⟨data⟩ := s
  simp only [slice3]
  exact congrArg String.mk (List.take_of_length_le h)

/-- Claim C7 (confirmed): a test callback returning a deferred computation
yields a passing ExecResult when it resolves; when it rejects, a failing
ExecResult whose error detail renders the rejection reason (for a string
reason, the reason itself appears after the failed header). -/
theorem c7_promise_outcomes (name : String) (reason : JsVal) (s : String)
    (hs : s ≠ "") :
    executeJustCallback name (some (.retPromise .resolves)) ()
        = mkOut [name] [⟨name, chalkGreen "✔", none⟩]
      ∧ executeJustCallback name (some (.retPromise (.rejects reason))) ()
        = mkOut [name] [⟨name, chalkRed "✖", some (printErrorDetails name reason)⟩]
      ∧ printErrorDetails name (.vStr s)
        = chalkRed ("\"" ++ name ++ "\" failed.") ++ "\n" ++ chalkRed s := by
  refine ⟨rfl, rfl, ?_⟩
  simp [printErrorDetails, isTruthy, joinLines, hs]

/-- Witness for C7 at a concrete rejection reason. -/
theorem c7_promise_outcomes_witness :
    executeJustCallback "t" (some (.retPromise .resolves)) ()
      = mkOut ["t"] [⟨"t", chalkGreen "✔", none⟩] :=
  (c7_promise_outcomes "t" (.vStr "boom") "boom" (by decide)).1

/-- Claim C8 counterexample: a native Error without a stack renders as the
bare failed header with no detail line appended at all, contradicting the
claim's case analysis, under which some detail always follows the header
(rendered here as `claimC8Render`). -/
theorem c8_stackless_error_bare :
    printErrorDetails "t" (.vErr 0 none) = chalkRed "\"t\" failed."
      ∧ printErrorDetails "t" (.vErr 0 none) ≠ claimC8Render "t" (.vErr 0 none) := by
  exact ⟨rfl, by decide⟩

/-- Claim C8 (amended): the rendered block always starts with the red
failed header; then the truthiness guard comes first (falsy errors —
null, undefined, empty string, zero, false — get the generic
unknown-error line), a native Error gets its stack under the Details
label only when the stack is truthy and otherwise adds no detail line,
then a string is appended, then a plain object is JSON-serialized under
the could-not-parse label, and anything else gets the generic line. -/
theorem c8_error_rendering (name : String) (e : JsVal) :
    printErrorDetails name e = amendedC8Render name e
      ∧ ∃ rest : String, printErrorDetails name e
          = chalkRed ("\"" ++ name ++ "\" failed.") ++ rest :=
  ⟨ped_eq_amended name e, printErrorDetails_head name e⟩

/-- Claim C9 (confirmed): for a function argument `toThrow` returns true
whether or not the call throws, because the matcher's own did-not-throw
Error is raised inside its try block and caught by its own catch; it
throws only when the argument is not a function. -/
theorem c9_tothrow_always_true (ref : Nat) (v : JsVal)
    (hv : typeofStr v ≠ "function") :
    toThrow (.vFun ref true) = Except.ok true
      ∧ toThrow (.vFun ref false) = Except.ok true
      ∧ ∃ msg, toThrow v = Except.error msg := by
  refine ⟨rfl, rfl, ?_⟩
  cases v with
  | vFun r t => exact absurd rfl hv
  | vUndef => exact ⟨_, rfl⟩
  | vNull => exact ⟨_, rfl⟩
  | vBool b => exact ⟨_, rfl⟩
  | vNum n => exact ⟨_, rfl⟩
  | vStr s => exact ⟨_, rfl⟩
  | vErr r st => exact ⟨_, rfl⟩
  | vObj r f => exact ⟨_, rfl⟩

/-- Witness for C9 at a non-function argument. -/
theorem c9_tothrow_always_true_witness :
    toThrow (.vFun 0 true) = Except.ok true :=
  (c9_tothrow_always_true 0 (.vNum 3) (by decide)).1

/-- Claim C10 (confirmed): `toEqual` succeeds exactly on strict reference
equality; two structurally equal objects with distinct identities make it
throw. -/
theorem c10_toequal_strict_reference (a b : JsVal) (r1 r2 : Nat)
    (fields : List (String × JsPrim)) (hr : r1 ≠ r2) :
    (toEqual a b = Except.ok true ↔ strictEq a b = true)
      ∧ ∃ msg, toEqual (.vObj r1 fields) (.vObj r2 fields) = Except.error msg := by
  constructor
  · constructor
    · intro h
      cases hs : strictEq a b with
      | true => rfl
      | false => simp [toEqual, hs] at h
    · intro h
      simp [toEqual, h]
  · have hs : strictEq (.vObj r1 fields) (.vObj r2 fields) = false := by
      simp [strictEq, hr]
    exact ⟨"Expected value " ++ chalkBold "does not equal" ++ " received value.",
      by simp [toEqual, hs, typeofStr]⟩

/-- Witness for C10 at concrete inputs. -/
theorem c10_toequal_strict_reference_witness :
    toEqual (.vNum 1) (.vNum 1) = Except.ok true :=
  (c10_toequal_strict_reference (.vNum 1) (.vNum 1) 1 2 [] (by decide)).1.mpr
    (by decide)

/-- Claim C1 counterexample: a lazy-sequence emission that is not a
well-formed ExecResult (here the number 5) is coerced to the FAILING
result (the red ✖ indicator, no detail), not to a passing one as the
claim states. -/
theorem c1_malformed_emission_fails :
    ejcVals "t" (some (.retObs [.vNum 5] none)) = [⟨"t", chalkRed "✖", none⟩]
      ∧ chalkRed "✖" ≠ chalkGreen "✔" := by
  exact ⟨rfl, by decide⟩

/-- Claim C1 (amended): for an observable-returning test callback, an
error appends exactly one failing result carrying the rendered details; a
well-formed ExecResult emission passes through unchanged; any other
emitted value is coerced to the FAILING result (without detail), not a
passing one; and completion with no prior emission produces NO result at
all rather than a passing coercion. -/
theorem c1_observable_normalization (name : String) (emits : List JsVal)
    (e v : JsVal) (ref : Nat) (r : ExecResult)
    (hv : isExecResult v = false) :
    ejcVals name (some (.retObs emits (some e)))
        = emits.map (coerceEmission name)
          ++ [⟨name, chalkRed "✖", some (printErrorDetails name e)⟩]
      ∧ ejcVals name (some (.retObs emits none)) = emits.map (coerceEmission name)
      ∧ coerceEmission name (mkExecObj ref r) = r
      ∧ coerceEmission name v = ⟨name, chalkRed "✖", none⟩
      ∧ ejcVals name (some (.retObs [] none)) = [] := by
  refine ⟨?_, ejcVals_obs name emits, coerceEmission_exec name ref r, ?_, rfl⟩
  · simpa [failWithErr] using ejcVals_obs_err name emits e
  · simpa [failBase] using coerceEmission_not_exec name v hv

/-- Witness for C1 at concrete inputs. -/
theorem c1_observable_normalization_witness :
    coerceEmission "t" (.vNum 5) = ⟨"t", chalkRed "✖", none⟩ :=
  (c1_observable_normalization "t" [] (.vStr "x") (.vNum 5) 0
    ⟨"a", "b", none⟩ (by decide)).2.2.2.1

/-- Claim C5 counterexample: an observable emission that passes the
well-formedness check flows through unchanged, so the runner produces an
ExecResult whose `errorStr` is populated while its `passed` field is the
PASSING indicator — and that indicator is a colorized glyph string, not a
boolean. -/
theorem c5_passthrough_shape_violation :
    ejcVals "t" (some (.retObs [mkExecObj 0 ⟨"t", chalkGreen "✔", some "boom"⟩] none))
        = [⟨"t", chalkGreen "✔", some "boom"⟩]
      ∧ (⟨"t", chalkGreen "✔", some "boom"⟩ : ExecResult).errorStr ≠ none
      ∧ (⟨"t", chalkGreen "✔", some "boom"⟩ : ExecResult).passed
          = "\x1b[32m" ++ "✔" ++ "\x1b[39m" := by
  exact ⟨rfl, by decide, rfl⟩

/-- Claim C5 (amended): every ExecResult the normalizer itself constructs
(that is, for non-observable callback shapes; observable emissions pass
through as supplied) has the shape name plus a colorized pass/fail glyph
string in `passed` (the source declares `passed: string`, not boolean),
with `errorStr` populated — and then non-empty — exactly on failures. -/
theorem c5_execresult_shape (name : String) (cb : CbResult)
    (hcb : isObsShape cb = false) (r : ExecResult)
    (hr : r ∈ ejcVals name (some cb)) :
    ejcVals name none = [⟨name, chalkGreen "✔", none⟩]
      ∧ ((r.passed = chalkGreen "✔" ∧ r.errorStr = none)
        ∨ (r.passed = chalkRed "✖" ∧ ∃ s, r.errorStr = some s ∧ s ≠ "")) := by
  refine ⟨rfl, ?_⟩
  cases cb with
  | retVoid =>
      simp [ejcVals, executeJustCallback, mkOut_vals] at hr
      subst hr
      exact Or.inl ⟨rfl, rfl⟩
  | throws e =>
      simp [ejcVals, executeJustCallback, mkOut_vals] at hr
      subst hr
      exact Or.inr ⟨rfl, printErrorDetails name e, rfl,
        printErrorDetails_ne_empty name e⟩
  | retPromise p =>
      cases p with
      | resolves =>
          simp [ejcVals, executeJustCallback, mkOut_vals] at hr
          subst hr
          exact Or.inl ⟨rfl, rfl⟩
      | rejects reason =>
          simp [ejcVals, executeJustCallback, mkOut_vals] at hr
          subst hr
          exact Or.inr ⟨rfl, printErrorDetails name reason, rfl,
            printErrorDetails_ne_empty name reason⟩
  | retObs emits errAfter => simp [isObsShape] at hcb

/-- Witness for C5 at a concrete throwing callback. -/
theorem c5_execresult_shape_witness :
    ejcVals "t" none = [⟨"t", chalkGreen "✔", none⟩] :=
  (c5_execresult_shape "t" (.throws (.vStr "boom")) (by decide)
    ⟨"t", chalkRed "✖", some (printErrorDetails "t" (.vStr "boom"))⟩
    (by decide)).1

/-- A three-test scenario used as a concrete witness input: "a" passes
synchronously, "b" throws, "c" resolves (the scenario of the spec's
testable properties). -/
def scenarioReg : Registry :=
  ⟨none, none, none, none,
    [("a", .retVoid), ("b", .throws (.vStr "boom")), ("c", .retPromise .resolves)]⟩

/-- Claim C2 counterexample: one registered test whose observable emits
two well-formed ExecResults makes the test produce two results and the
summary contain two entries, though N = 1. -/
theorem c2_multi_emission_summary :
    (⟨none, none, none, none,
        [("t", .retObs [mkExecObj 0 ⟨"r1", "x", none⟩,
                        mkExecObj 1 ⟨"r2", "y", none⟩] none)]⟩ : Registry).tests.length = 1
      ∧ ((describeRun ⟨none, none, none, none,
            [("t", .retObs [mkExecObj 0 ⟨"r1", "x", none⟩,
                            mkExecObj 1 ⟨"r2", "y", none⟩] none)]⟩
            (fun _ => 0)).vals.getD 0 []).length = 2 := by
  exact ⟨rfl, rfl⟩

/-- Claim C2 (amended): a test callback produces one ExecResult per shape
only outside the observable case — `resultCount` is 1 for synchronous,
throwing and promise shapes, but equals the emission count (plus one on
error) for observables; under single-emission hooks and tests the run
delivers exactly one summary with one entry per registered test, in
registration order (names match registration for non-observable
shapes). -/
theorem c2_summary_per_emission (reg : Registry) (el : String → Int)
    (name : String) (cb : CbResult)
    (hba : singleEmit "beforeAll" reg.beforeAllFn)
    (hbe : singleEmit "beforeEach" reg.beforeEachFn)
    (hae : singleEmit "afterEach" reg.afterEachFn)
    (haa : singleEmit "afterAll" reg.afterAllFn)
    (hts : ∀ p ∈ reg.tests, singleEmit p.1 (some p.2))
    (hne : reg.tests ≠ []) :
    (ejcVals name (some cb)).length = resultCount cb
      ∧ (isObsShape cb = false → resultCount cb = 1)
      ∧ (describeRun reg el).err = none
      ∧ (describeRun reg el).vals = [summaryOf reg el]
      ∧ (summaryOf reg el).length = reg.tests.length
      ∧ ((∀ p ∈ reg.tests, isObsShape p.2 = false) →
          (summaryOf reg el).map (fun t => t.name) = reg.tests.map (fun p => p.1)) := by
  have hmaster := describeRun_run reg el hba hbe hae haa hts hne
  refine ⟨ejcVals_length name cb, ?_, ?_, ?_, ?_, ?_⟩
  · intro hobs
    cases cb with
    | retVoid => rfl
    | throws e => rfl
    | retPromise p => cases p <;> rfl
    | retObs emits errAfter => simp [isObsShape] at hobs
  · rw [hmaster, mkOut_err]
  · rw [hmaster, mkOut_vals]
  · simp [summaryOf]
  · intro hobs
    simp only [summaryOf, List.map_map]
    refine List.map_congr_left ?_
    intro p hp
    show (ejcRes p.1 (some p.2)).name = p.1
    exact ejcRes_name p.1 p.2 (hobs p hp)

/-- Witness for C2 at the three-test scenario. -/
theorem c2_summary_per_emission_witness :
    (describeRun scenarioReg (fun _ => 0)).vals
      = [summaryOf scenarioReg (fun _ => 0)] :=
  (c2_summary_per_emission scenarioReg (fun _ => 0) "t" .retVoid
    (by decide) (by decide) (by decide) (by decide) (by decide)
    (by decide)).2.2.2.1

/-- Claim C3 counterexample: with zero registered tests the summary
pipeline errors with EmptyError before the afterAll stage, so a
registered afterAll hook is never invoked (count 0, not 1), although
beforeAll still runs once. -/
theorem c3_afterAll_skipped_no_tests :
    (⟨some .retVoid, some .retVoid, some .retVoid, some .retVoid,
        []⟩ : Registry).afterAllFn.isSome = true
      ∧ (describeRun ⟨some .retVoid, some .retVoid, some .retVoid, some .retVoid,
            []⟩ (fun _ => 0)).log.count "afterAll" = 0
      ∧ (describeRun ⟨some .retVoid, some .retVoid, some .retVoid, some .retVoid,
            []⟩ (fun _ => 0)).log.count "beforeAll" = 1 := by
  exact ⟨rfl, by decide, by decide⟩

/-- Claim C3 (amended): under single-emission hooks and tests whose names
do not collide with the hook labels, a run with N ≥ 1 tests invokes a
registered beforeEach and afterEach exactly N times each and a registered
beforeAll and afterAll exactly once each (the hook-log length is 1 when
the slot is registered and 0 otherwise); with N = 0, beforeAll is still
invoked once but afterAll is invoked zero times, because the EmptyError
from `last()` aborts the pipeline first. -/
theorem c3_hook_invocation_counts (reg : Registry) (el : String → Int)
    (hba : singleEmit "beforeAll" reg.beforeAllFn)
    (hbe : singleEmit "beforeEach" reg.beforeEachFn)
    (hae : singleEmit "afterEach" reg.afterEachFn)
    (haa : singleEmit "afterAll" reg.afterAllFn)
    (hts : ∀ p ∈ reg.tests, singleEmit p.1 (some p.2))
    (hdisj : ∀ p ∈ reg.tests, p.1 ≠ "beforeAll" ∧ p.1 ≠ "beforeEach"
        ∧ p.1 ≠ "afterEach" ∧ p.1 ≠ "afterAll") :
    (reg.tests ≠ [] →
        (describeRun reg el).log.count "beforeEach"
            = reg.tests.length * (hookLog "beforeEach" reg.beforeEachFn).length
          ∧ (describeRun reg el).log.count "afterEach"
            = reg.tests.length * (hookLog "afterEach" reg.afterEachFn).length
          ∧ (describeRun reg el).log.count "beforeAll"
            = (hookLog "beforeAll" reg.beforeAllFn).length
          ∧ (describeRun reg el).log.count "afterAll"
            = (hookLog "afterAll" reg.afterAllFn).length)
      ∧ (reg.tests = [] →
          (describeRun reg el).log.count "beforeAll"
              = (hookLog "beforeAll" reg.beforeAllFn).length
            ∧ (describeRun reg el).log.count "afterAll" = 0) := by
  constructor
  · intro hne
    have hmaster := describeRun_run reg el hba hbe hae haa hts hne
    simp only [hmaster, mkOut_log, suiteLog, List.count_append]
    refine ⟨?_, ?_, ?_, ?_⟩
    · rw [count_hookLog_ne _ _ _ (by decide),
        count_hookLog_ne _ _ _ (by decide),
        count_perTest_flatten reg "beforeEach" reg.tests
          (fun p hp => (hdisj p hp).2.1),
        count_hookLog_self,
        count_hookLog_ne _ _ _ (by decide)]
      simp
    · rw [count_hookLog_ne _ _ _ (by decide),
        count_hookLog_ne _ _ _ (by decide),
        count_perTest_flatten reg "afterEach" reg.tests
          (fun p hp => (hdisj p hp).2.2.1),
        count_hookLog_self,
        count_hookLog_ne _ _ _ (by decide)]
      simp
    · rw [count_hookLog_self,
        count_hookLog_ne _ _ _ (by decide),
        count_perTest_flatten reg "beforeAll" reg.tests
          (fun p hp => (hdisj p hp).1),
        count_hookLog_ne _ _ _ (by decide),
        count_hookLog_ne _ _ _ (by decide)]
      simp
    · rw [count_hookLog_self,
        count_hookLog_ne _ _ _ (by decide),
        count_perTest_flatten reg "afterAll" reg.tests
          (fun p hp => (hdisj p hp).2.2.2),
        count_hookLog_ne _ _ _ (by decide),
        count_hookLog_ne _ _ _ (by decide)]
      simp
  · intro hnil
    have hmaster := describeRun_noTests reg el hba hnil
    constructor
    · simp only [hmaster, ObsOut.log, filterMap_evOf_evs]
      exact count_hookLog_self _ _
    · simp only [hmaster, ObsOut.log, filterMap_evOf_evs]
      exact count_hookLog_ne _ _ _ (by decide)

/-- Witness for C3 at a concrete two-test registry with all hooks
registered. -/
theorem c3_hook_invocation_counts_witness :
    (describeRun ⟨some .retVoid, some .retVoid, some .retVoid, some .retVoid,
        [("a", .retVoid), ("b", .retVoid)]⟩ (fun _ => 0)).log.count "beforeEach"
      = 2 := by
  have h := (c3_hook_invocation_counts
    ⟨some .retVoid, some .retVoid, some .retVoid, some .retVoid,
      [("a", .retVoid), ("b", .retVoid)]⟩ (fun _ => 0)
    (by decide) (by decide) (by decide) (by decide) (by decide)
    (by decide)).1 (by decide)
  simpa using h.1

/-- Claim C4 (confirmed): a synchronous throw or a rejection inside a
callback is caught at the normalizer boundary and becomes a failing
ExecResult with a non-empty rendered detail; the normalized observable
never errors, so the failure cannot propagate into the runner's control
flow, and every registered test is still invoked. -/
theorem c4_failure_isolation (name : String) (e reason : JsVal)
    (reg : Registry) (el : String → Int)
    (hba : singleEmit "beforeAll" reg.beforeAllFn)
    (hbe : singleEmit "beforeEach" reg.beforeEachFn)
    (hae : singleEmit "afterEach" reg.afterEachFn)
    (haa : singleEmit "afterAll" reg.afterAllFn)
    (hts : ∀ p ∈ reg.tests, singleEmit p.1 (some p.2))
    (p : String × CbResult) (hp : p ∈ reg.tests) :
    executeJustCallback name (some (.throws e)) ()
        = mkOut [name] [⟨name, chalkRed "✖", some (printErrorDetails name e)⟩]
      ∧ executeJustCallback name (some (.retPromise (.rejects reason))) ()
        = mkOut [name] [⟨name, chalkRed "✖", some (printErrorDetails name reason)⟩]
      ∧ printErrorDetails name e ≠ ""
      ∧ (executeJustCallback name (some (.throws e)) ()).err = none
      ∧ p.1 ∈ (describeRun reg el).log := by
  have hne : reg.tests ≠ [] := List.ne_nil_of_mem hp
  have hmaster := describeRun_run reg el hba hbe hae haa hts hne
  refine ⟨rfl, rfl, printErrorDetails_ne_empty name e, rfl, ?_⟩
  rw [hmaster, mkOut_log]
  exact List.mem_append_left _ (List.mem_append_right _ (mem_suiteLog reg p hp))

/-- Witness for C4 at the three-test scenario: although test "b" throws,
test "c" is still invoked. -/
theorem c4_failure_isolation_witness :
    ("c" : String) ∈ (describeRun scenarioReg (fun _ => 0)).log :=
  (c4_failure_isolation "t" (.vStr "x") (.vStr "y") scenarioReg (fun _ => 0)
    (by decide) (by decide) (by decide) (by decide) (by decide)
    ("c", .retPromise .resolves)
    (List.mem_cons_of_mem _ (List.mem_cons_of_mem _
      (List.mem_cons_self _ _)))).2.2.2.2

/-- Claim C6 counterexample: an elapsed time of half a second (two clock
readings 500 ms apart, exact in both the model and IEEE arithmetic)
renders as "0.5" — one decimal digit, not exactly three. -/
theorem c6_truncated_decimals :
    dateToMs ⟨0, 0, 1, 500⟩ - dateToMs ⟨0, 0, 1, 0⟩ = 500
      ∧ formatTiming (dateToMs ⟨0, 0, 1, 500⟩ - dateToMs ⟨0, 0, 1, 0⟩) = "0.5"
      ∧ "0.5" = "0" ++ "." ++ "5" ∧ ("5" : String).length ≠ 3 := by
  exact ⟨by decide, by decide, by decide, by decide⟩

/-- Claim C6 (amended): a zero elapsed time renders as the literal
"0.000"; a nonzero elapsed time renders as the whole seconds, a dot, and
the decimal component truncated to AT MOST three digits — exactly three
when the millisecond remainder is zero (the "000" default) or needs
three digits (e.g. 12 ms renders "0.012"), fewer when the shortest
decimal representation is shorter (e.g. 500 ms renders "0.5"). -/
theorem c6_timing_format (k : Nat) (hk : k ≠ 0) :
    formatTiming 0 = "0.000"
      ∧ formatTiming 12 = "0.012"
      ∧ formatTiming 2000 = "2.000"
      ∧ (∃ w d : String, formatTiming (k : Int) = w ++ "." ++ d
          ∧ 1 ≤ d.length ∧ d.length ≤ 3
          ∧ (k % 1000 = 0 → d = "000")) := by
  refine ⟨by decide, by decide, by decide, ?_⟩
  have hk' : (k : Int) ≠ 0 := by
    exact_mod_cast hk
  by_cases hm : k % 1000 = 0
  · have hm' : (k : Int) % 1000 = 0 := by omega
    refine ⟨toString ((k : Int) / 1000), "000", ?_, by decide, by decide,
      fun _ => rfl⟩
    simp [formatTiming, jsNumSplit, hm', hk',
      show slice3 "000" = "000" from rfl]
  · have hm' : ¬((k : Int) % 1000 = 0) := by omega
    have hnn : ¬((k : Int) < 0) := by omega
    have habs : (k : Int).natAbs = k := Int.natAbs_ofNat k
    have hfb := dtz_pad3_bounds (k % 1000) (Nat.mod_lt _ (by decide)) hm
    refine ⟨toString (k / 1000), dropTrailingZeros (pad3 (k % 1000)), ?_,
      hfb.1, hfb.2, fun hc => absurd hc hm⟩
    simp [formatTiming, jsNumSplit, hm', hk', hnn, habs,
      slice3_of_le _ hfb.2]

/-- Witness for C6 at a concrete nonzero elapsed time. -/
theorem c6_timing_format_witness : formatTiming 0 = "0.000" :=
  (c6_timing_format 500 (by decide)).1
